import Mathlib

/-!
Shallow embedding of the whiteboard synchronization core (shape model,
document store, undo/redo manager and peer sync channel) of the
`erp.piche.dashboard` repository, together with proofs of the spec claims.

Conventions of the embedding:
* JS numbers that carry geometry (coordinates, sizes, font sizes) are
  modelled as rationals `ℚ`; timestamps are `Int` (milliseconds).
* The two snapshot stacks are JS arrays used with `push`/`pop` at the end
  and `slice(-50)` for capping.  They are modelled most-recent-first: the
  array's end (the push/pop side) is the Lean list's head, so a push is
  `cons`, a pop takes the head, and `slice(-50)` (keep the 50 newest)
  is `List.take 50`.
* The history list is stored most-recent-first in the source itself
  (`[entry, ...prev].slice(0, 250)`), so it maps to `cons`/`take 250`
  directly.
* Non-deterministic inputs of the source (`randomId()`, `Date.now()`)
  are passed in explicitly as a `Fresh` value (an id/timestamp pair).
* Effects: every operation returns the new context together with the
  list of channel messages it broadcasts.
-/

namespace Whiteboard

structure Point where
  x : ℚ
  y : ℚ
deriving DecidableEq, Repr

/-- Source `PathShape` (part_000 lines 16-21). -/
structure PathShape where
  id : String
  createdBy : String
  createdAt : Int
  points : List Point
  stroke : String
  strokeWidth : ℚ
deriving DecidableEq, Repr

/-- Source `TextShape` (part_000 lines 23-30). -/
structure TextShape where
  id : String
  createdBy : String
  createdAt : Int
  x : ℚ
  y : ℚ
  text : String
  color : String
  fontSize : ℚ
deriving DecidableEq, Repr

/-- Source `TableShape` (part_000 lines 32-42).  A possibly ragged or
too-short `cells` grid (including the legacy "missing cells" case,
modelled as `[]`) is allowed, exactly as in the source before
`ensureTableCells` runs. -/
structure TableShape where
  id : String
  createdBy : String
  createdAt : Int
  x : ℚ
  y : ℚ
  rows : Nat
  cols : Nat
  cellWidth : ℚ
  cellHeight : ℚ
  stroke : String
  cells : List (List String)
deriving DecidableEq, Repr

/-- Source `Shape` (part_000 line 44): tagged union of the three kinds. -/
inductive Shape
  | path (data : PathShape)
  | text (data : TextShape)
  | table (data : TableShape)
deriving DecidableEq, Repr

/-- The common `id` field of a shape. -/
def Shape.id : Shape → String
  | .path p => p.id
  | .text t => t.id
  | .table t => t.id

/-- Model of the JS `value.trim()` call: remove whitespace from both ends
of the string.  (An executable equivalent of `String.trim`, written on
the character list so that it reduces in the kernel.) -/
def trimString (s : String) : String :=
  ⟨((s.data.dropWhile Char.isWhitespace).reverse.dropWhile Char.isWhitespace).reverse⟩

/-- Source `HistoryItem` (part_000 lines 46-51). -/
structure HistoryItem where
  id : String
  timestamp : Int
  user : String
  description : String
deriving DecidableEq, Repr

/-- Source `ChannelMessage` (part_000 lines 53-85). -/
inductive ChannelMessage
  | addShape (shape : Shape) (history : HistoryItem) (senderId : String)
  | clearBoard (history : HistoryItem) (senderId : String)
  | syncRequest (senderId : String)
  | syncState (shapes : List Shape) (history : List HistoryItem) (senderId : String)
  | updateShape (shape : Shape) (history : HistoryItem) (senderId : String)
  | deleteShape (shapeId : String) (history : HistoryItem) (senderId : String)
  | undoRedo (shapes : List Shape) (history : List HistoryItem) (senderId : String)
deriving DecidableEq, Repr

/-- The `senderId` field carried by every message. -/
def ChannelMessage.senderId : ChannelMessage → String
  | .addShape _ _ s => s
  | .clearBoard _ s => s
  | .syncRequest s => s
  | .syncState _ _ s => s
  | .updateShape _ _ s => s
  | .deleteShape _ _ s => s
  | .undoRedo _ _ s => s

def DEFAULT_FONT_SIZE : ℚ := 18
def MIN_RESIZE_DIMENSION : ℚ := 16
def MIN_PATH_DIMENSION : ℚ := 4

/-- Source `ShapeBounds` (part_000 lines 110-117). -/
structure ShapeBounds where
  minX : ℚ
  minY : ℚ
  maxX : ℚ
  maxY : ℚ
  width : ℚ
  height : ℚ
deriving DecidableEq, Repr

/-- Source `getShapeBounds` (part_000 lines 119-175).  The float factors
`0.6` and `1.4` are the rationals `3/5` and `7/5`; `Math.min(...xs)` /
`Math.max(...xs)` over the nonempty point list are folds from the first
element.  In the empty-points branch the source reads
`shape.points[0]?.x ?? 0`, which is `0`. -/
def getShapeBounds : Shape → ShapeBounds
  | .text t =>
      let charWidth := t.fontSize * (3 / 5 : ℚ)
      let width := max (charWidth * max ((t.text.length : ℚ)) 1) t.fontSize
      let height := t.fontSize * (7 / 5 : ℚ)
      { minX := t.x, minY := t.y - height, maxX := t.x + width, maxY := t.y
        width := width, height := height }
  | .table t =>
      let width := (t.cols : ℚ) * t.cellWidth
      let height := (t.rows : ℚ) * t.cellHeight
      { minX := t.x, minY := t.y, maxX := t.x + width, maxY := t.y + height
        width := width, height := height }
  | .path p =>
      match p.points with
      | [] =>
          { minX := 0, minY := 0, maxX := 0, maxY := 0
            width := MIN_PATH_DIMENSION, height := MIN_PATH_DIMENSION }
      | q :: rest =>
          let minX := rest.foldl (fun acc r => min acc r.x) q.x
          let maxX := rest.foldl (fun acc r => max acc r.x) q.x
          let minY := rest.foldl (fun acc r => min acc r.y) q.y
          let maxY := rest.foldl (fun acc r => max acc r.y) q.y
          { minX := minX, minY := minY, maxX := maxX, maxY := maxY
            width := max (maxX - minX) MIN_PATH_DIMENSION
            height := max (maxY - minY) MIN_PATH_DIMENSION }

/-- Source `ensureTableCells` (part_000 lines 216-223): rebuild the grid
as exactly `rows` rows of exactly `cols` cells, keeping existing
in-bounds content (`existingRow[colIndex] ?? ''`) and filling the rest
with the empty string (`legacyCells?.[rowIndex] ?? []` is `getD _ []`). -/
def ensureTableCells (shape : TableShape) : TableShape :=
  let cells := (List.range shape.rows).map fun rowIndex =>
    let existingRow := shape.cells.getD rowIndex []
    (List.range shape.cols).map fun colIndex => existingRow.getD colIndex ""
  { shape with cells := cells }

/-- Source `normalizeShape` (part_000 lines 225-239).  The source's text
branch replaces a non-number or non-finite `fontSize` by the default;
in this embedding `fontSize : ℚ` is always a finite number, so that
branch is the identity and only the table branch remains. -/
def normalizeShape : Shape → Shape
  | .table t => .table (ensureTableCells t)
  | s => s

/-- Source `normalizeShapes` (part_000 line 241). -/
def normalizeShapes (shapes : List Shape) : List Shape :=
  shapes.map normalizeShape

/-- A full document snapshot `{ shapes, history }` as stored on the
undo/redo stacks (part_000 line 330). -/
structure Snapshot where
  shapes : List Shape
  history : List HistoryItem
deriving DecidableEq, Repr, Inhabited

/-- The replicated-state part of one `App` context: its identity, the
live document (`shapes`/`history` state mirrored by `shapesRef` /
`historyRef`), the two snapshot stacks (`undoStackRef`/`redoStackRef`)
and the one-shot suppression flag (`isUndoRedoRef`). -/
structure Ctx where
  clientId : String
  userName : String
  shapes : List Shape
  history : List HistoryItem
  undoStack : List Snapshot
  redoStack : List Snapshot
  isUndoRedo : Bool
deriving DecidableEq, Repr

/-- An id/timestamp pair standing for one `randomId()` / `getTimestamp()`
draw of the source. -/
structure Fresh where
  id : String
  timestamp : Int
deriving DecidableEq, Repr, Inhabited

/-- The `HistoryItem` built by `pushHistory` from one fresh draw. -/
def mkHistoryItem (fresh : Fresh) (user description : String) : HistoryItem :=
  { id := fresh.id, timestamp := fresh.timestamp, user := user
    description := description }

/-- Source `saveStateForUndo` (part_000 lines 535-548): when the one-shot
flag is set, clear it and do nothing else; otherwise push a copy of the
current document, cap the undo stack at the 50 newest frames
(`slice(-50)`, i.e. `take 50` in the newest-first representation) and
clear the redo stack. -/
def saveStateForUndo (ctx : Ctx) : Ctx :=
  if ctx.isUndoRedo then
    { ctx with isUndoRedo := false }
  else
    { ctx with
        undoStack := (Snapshot.mk ctx.shapes ctx.history :: ctx.undoStack).take 50
        redoStack := [] }

/-- Source `pushHistory` (part_000 lines 550-562): prepend a new entry
and keep the 250 most recent (`[entry, ...prev].slice(0, 250)`).  All
modelled call sites pass no `userOverride`, so that parameter is
dropped.  Returns the updated context and the entry (the source returns
the entry). -/
def pushHistory (ctx : Ctx) (fresh : Fresh) (description : String) :
    Ctx × HistoryItem :=
  let entry := mkHistoryItem fresh ctx.userName description
  ({ ctx with history := (entry :: ctx.history).take 250 }, entry)

/-- Source `performUndo` (part_000 lines 564-583): no-op on an empty
undo stack; otherwise pop the newest frame, push the current document
on the redo stack, set the one-shot flag, install the popped frame as
the live document, append the "undid last action" history entry, and
broadcast the popped (pre-entry) pair. -/
def performUndo (ctx : Ctx) (fresh : Fresh) : Ctx × List ChannelMessage :=
  match ctx.undoStack with
  | [] => (ctx, [])
  | previousState :: restUndo =>
      let ctx1 : Ctx :=
        { ctx with
            undoStack := restUndo
            redoStack := Snapshot.mk ctx.shapes ctx.history :: ctx.redoStack
            isUndoRedo := true
            shapes := previousState.shapes
            history := previousState.history }
      let ctx2 := (pushHistory ctx1 fresh (ctx.userName ++ " undid last action")).1
      (ctx2, [.undoRedo previousState.shapes previousState.history ctx.clientId])

/-- Source `performRedo` (part_000 lines 585-604): symmetric to
`performUndo`.  Note the source pushes onto the undo stack here with no
`slice(-50)` cap. -/
def performRedo (ctx : Ctx) (fresh : Fresh) : Ctx × List ChannelMessage :=
  match ctx.redoStack with
  | [] => (ctx, [])
  | nextState :: restRedo =>
      let ctx1 : Ctx :=
        { ctx with
            redoStack := restRedo
            undoStack := Snapshot.mk ctx.shapes ctx.history :: ctx.undoStack
            isUndoRedo := true
            shapes := nextState.shapes
            history := nextState.history }
      let ctx2 := (pushHistory ctx1 fresh (ctx.userName ++ " redid last action")).1
      (ctx2, [.undoRedo nextState.shapes nextState.history ctx.clientId])

/-- Source `commitShape` (part_000 lines 624-638): capture an undo
snapshot, log, append the normalized shape, broadcast `add-shape`. -/
def commitShape (ctx : Ctx) (shape : Shape) (description : String)
    (fresh : Fresh) : Ctx × List ChannelMessage :=
  let ctx1 := saveStateForUndo ctx
  let pushed := pushHistory ctx1 fresh description
  let normalizedShape := normalizeShape shape
  let ctx3 := { pushed.1 with shapes := pushed.1.shapes ++ [normalizedShape] }
  (ctx3, [.addShape normalizedShape pushed.2 ctx.clientId])

/-- Source `applyShapeUpdate` (part_000 lines 640-658): capture an undo
snapshot unless `skipUndoSnapshot`, log, replace by id, broadcast
`update-shape`. -/
def applyShapeUpdate (ctx : Ctx) (updatedShape : Shape) (description : String)
    (skipUndoSnapshot : Bool) (fresh : Fresh) : Ctx × List ChannelMessage :=
  let ctx1 := if skipUndoSnapshot then ctx else saveStateForUndo ctx
  let normalizedShape := normalizeShape updatedShape
  let pushed := pushHistory ctx1 fresh description
  let ctx3 :=
    { pushed.1 with
        shapes := pushed.1.shapes.map fun s =>
          if s.id = normalizedShape.id then normalizedShape else s }
  (ctx3, [.updateShape normalizedShape pushed.2 ctx.clientId])

/-- Source `deleteShape` (part_000 lines 1103-1116): capture an undo
snapshot, remove by id, log, broadcast `delete-shape`. -/
def deleteShape (ctx : Ctx) (shapeId : String) (description : String)
    (fresh : Fresh) : Ctx × List ChannelMessage :=
  let ctx1 := saveStateForUndo ctx
  let ctx2 := { ctx1 with shapes := ctx1.shapes.filter fun s => s.id ≠ shapeId }
  let pushed := pushHistory ctx2 fresh description
  (pushed.1, [.deleteShape shapeId pushed.2 ctx.clientId])

/-- Source `clearBoard` (part_000 lines 1091-1101): no-op when the board
is already empty; otherwise capture an undo snapshot, log, empty the
shape list, broadcast `clear-board`. -/
def clearBoard (ctx : Ctx) (fresh : Fresh) : Ctx × List ChannelMessage :=
  if ctx.shapes.isEmpty then (ctx, [])
  else
    let ctx1 := saveStateForUndo ctx
    let pushed := pushHistory ctx1 fresh (ctx.userName ++ " cleared the board")
    let ctx3 := { pushed.1 with shapes := [] }
    (ctx3, [.clearBoard pushed.2 ctx.clientId])

/-- Source `updateTableCell` (part_000 lines 729-748): normalize the
grid, trim the new value, no-op when the addressed cell already holds
it (`normalizedTable.cells[row]?.[col] === sanitizedValue`), otherwise
replace that one cell and go through `applyShapeUpdate` (with the
default, non-skipping snapshot behaviour). -/
def updateTableCell (ctx : Ctx) (tableShape : TableShape) (row col : Nat)
    (value : String) (fresh : Fresh) : Ctx × List ChannelMessage :=
  let normalizedTable := ensureTableCells tableShape
  let sanitizedValue := trimString value
  if (normalizedTable.cells[row]?.bind fun cellRow => cellRow[col]?) =
      some sanitizedValue then
    (ctx, [])
  else
    let updatedCells := normalizedTable.cells.mapIdx fun rowIndex cellRow =>
      if rowIndex = row then
        cellRow.mapIdx fun colIndex cellValue =>
          if colIndex = col then sanitizedValue else cellValue
      else cellRow
    let updatedShape : TableShape := { normalizedTable with cells := updatedCells }
    applyShapeUpdate ctx (.table updatedShape)
      (ctx.userName ++ " updated cell R" ++ toString (row + 1) ++ "C" ++
        toString (col + 1))
      false fresh

/-- Source `handleMessage` (part_000 lines 412-458): drop self-echoes
(`payload.senderId === clientId`), apply remote mutations directly
(prepending the carried history entry with no 250-cap and no undo
capture), answer `sync-request` with a full `sync-state` snapshot when
holding any state, adopt `sync-state` wholesale, and adopt `undo-redo`
wholesale after setting the one-shot suppression flag.  The returned
message list holds what the handler itself posts (only the
`sync-request` reply). -/
def handleMessage (ctx : Ctx) (payload : ChannelMessage) :
    Ctx × List ChannelMessage :=
  if payload.senderId = ctx.clientId then (ctx, [])
  else
    match payload with
    | .addShape shape history _ =>
        ({ ctx with
            shapes := ctx.shapes ++ [normalizeShape shape]
            history := history :: ctx.history }, [])
    | .clearBoard history _ =>
        ({ ctx with shapes := [], history := history :: ctx.history }, [])
    | .updateShape shape history _ =>
        ({ ctx with
            shapes := ctx.shapes.map fun s =>
              if s.id = shape.id then normalizeShape shape else s
            history := history :: ctx.history }, [])
    | .deleteShape shapeId history _ =>
        ({ ctx with
            shapes := ctx.shapes.filter fun s => s.id ≠ shapeId
            history := history :: ctx.history }, [])
    | .syncRequest _ =>
        if ctx.shapes.isEmpty && ctx.history.isEmpty then (ctx, [])
        else (ctx, [.syncState ctx.shapes ctx.history ctx.clientId])
    | .syncState shapes history _ =>
        ({ ctx with shapes := normalizeShapes shapes, history := history }, [])
    | .undoRedo shapes history _ =>
        ({ ctx with
            isUndoRedo := true
            shapes := normalizeShapes shapes
            history := history }, [])

/-- One local snapshot-capturing mutation, as enumerated by the spec:
`commitShape`, `applyShapeUpdate` without `skipUndoSnapshot`,
`deleteShape`, or `clearBoard`. -/
inductive LocalMut
  | commit (shape : Shape) (description : String) (fresh : Fresh)
  | update (shape : Shape) (description : String) (fresh : Fresh)
  | del (shapeId : String) (description : String) (fresh : Fresh)
  | clear (fresh : Fresh)
deriving DecidableEq, Repr

/-- Run one local mutation (dropping its broadcast). -/
def applyMut (ctx : Ctx) : LocalMut → Ctx
  | .commit s d f => (commitShape ctx s d f).1
  | .update s d f => (applyShapeUpdate ctx s d false f).1
  | .del i d f => (deleteShape ctx i d f).1
  | .clear f => (clearBoard ctx f).1

/-- Run a sequence of local mutations in order. -/
def applyMuts (ctx : Ctx) : List LocalMut → Ctx
  | [] => ctx
  | m :: ms => applyMuts (applyMut ctx m) ms

/-- The guard under which a mutation really mutates: `clearBoard` is a
guarded no-op on an empty board, the other three always run. -/
def mutGuard (ctx : Ctx) : LocalMut → Bool
  | .clear _ => !ctx.shapes.isEmpty
  | _ => true

/-- Every mutation of the sequence passes its guard at its turn. -/
def validMuts (ctx : Ctx) : List LocalMut → Bool
  | [] => true
  | m :: ms => mutGuard ctx m && validMuts (applyMut ctx m) ms

/-- The history entry a mutation logs (assuming it passes its guard). -/
def mutEntry (ctx : Ctx) : LocalMut → HistoryItem
  | .commit _ d f => mkHistoryItem f ctx.userName d
  | .update _ d f => mkHistoryItem f ctx.userName d
  | .del _ d f => mkHistoryItem f ctx.userName d
  | .clear f => mkHistoryItem f ctx.userName (ctx.userName ++ " cleared the board")

/-- The shape list a mutation produces (assuming it passes its guard). -/
def mutShapes (ctx : Ctx) : LocalMut → List Shape
  | .commit s _ _ => ctx.shapes ++ [normalizeShape s]
  | .update s _ _ =>
      ctx.shapes.map fun sh =>
        if sh.id = (normalizeShape s).id then normalizeShape s else sh
  | .del i _ _ => ctx.shapes.filter fun sh => sh.id ≠ i
  | .clear _ => []

/-- Iterate `performUndo`, one fresh draw per call. -/
def undoIter (ctx : Ctx) : List Fresh → Ctx
  | [] => ctx
  | f :: fs => undoIter (performUndo ctx f).1 fs

/-- Iterate `performRedo`, one fresh draw per call. -/
def redoIter (ctx : Ctx) : List Fresh → Ctx
  | [] => ctx
  | f :: fs => redoIter (performRedo ctx f).1 fs

/-- The snapshots a mutation sequence captures, newest first (the same
order in which they sit on the undo stack). -/
def snapTrajectory (ctx : Ctx) : List LocalMut → List Snapshot
  | [] => []
  | m :: ms => snapTrajectory (applyMut ctx m) ms ++ [Snapshot.mk ctx.shapes ctx.history]

/-! ### Concrete values used as witnesses and counterexamples -/

/-- A freshly started context: empty document, empty stacks, clear flag. -/
def exCtx : Ctx :=
  { clientId := "self", userName := "me", shapes := [], history := []
    undoStack := [], redoStack := [], isUndoRedo := false }

def exPath : PathShape :=
  { id := "p1", createdBy := "me", createdAt := 0
    points := [Point.mk 0 0, Point.mk 3 4], stroke := "#fff", strokeWidth := 4 }

/-- A degenerate one-point path. -/
def exPathOne : PathShape := { exPath with id := "p2", points := [Point.mk 5 7] }

def exShape : Shape := .path exPath

/-- A well-formed 2×2 table. -/
def exTable : TableShape :=
  { id := "t1", createdBy := "me", createdAt := 0, x := 0, y := 0
    rows := 2, cols := 2, cellWidth := 80, cellHeight := 40, stroke := "#fff"
    cells := [["a", "b"], ["c", "d"]] }

/-- A table whose `cellWidth` is zero. -/
def exTableZero : TableShape :=
  { id := "t2", createdBy := "me", createdAt := 0, x := 0, y := 0
    rows := 1, cols := 1, cellWidth := 0, cellHeight := 1, stroke := "#fff"
    cells := [[""]] }

def exEntry : HistoryItem := { id := "e1", timestamp := 5, user := "u", description := "d" }

/-- A history already at the 250-entry cap. -/
def hist250 : List HistoryItem := List.replicate 250 exEntry

/-- A context holding a history at the 250-entry cap. -/
def ctx250 : Ctx := { exCtx with userName := "u", history := hist250 }

/-- A context with one frame on each snapshot stack. -/
def ctxStacks : Ctx :=
  { exCtx with
      shapes := [exShape]
      undoStack := [Snapshot.mk [] []]
      redoStack := [Snapshot.mk [exShape] [exEntry]] }

/-- Sixty identical snapshot-capturing local mutations. -/
def ms60 : List LocalMut := List.replicate 60 (.update exShape "me moved a stroke" ⟨"f", 0⟩)

/-! ### Helper lemmas about single operations -/

lemma saveStateForUndo_flag {ctx : Ctx} (h : ctx.isUndoRedo = true) :
    saveStateForUndo ctx = { ctx with isUndoRedo := false } := by
  simp [saveStateForUndo, h]

lemma saveStateForUndo_noflag {ctx : Ctx} (h : ctx.isUndoRedo = false) :
    saveStateForUndo ctx =
      { ctx with
          undoStack := (Snapshot.mk ctx.shapes ctx.history :: ctx.undoStack).take 50
          redoStack := [] } := by
  simp [saveStateForUndo, h]

/-- How one guard-passing local mutation transforms a context whose
suppression flag is clear: mutate the shapes, log one entry (capped at
250), capture one undo frame (capped at 50), clear the redo stack. -/
lemma applyMut_eq {ctx : Ctx} {m : LocalMut} (hflag : ctx.isUndoRedo = false)
    (hg : mutGuard ctx m = true) :
    applyMut ctx m =
      { ctx with
          shapes := mutShapes ctx m
          history := (mutEntry ctx m :: ctx.history).take 250
          undoStack := (Snapshot.mk ctx.shapes ctx.history :: ctx.undoStack).take 50
          redoStack := [] } := by
  cases m with
  | commit s d f =>
      simp [applyMut, commitShape, saveStateForUndo_noflag hflag, pushHistory,
        mutShapes, mutEntry]
  | update s d f =>
      simp [applyMut, applyShapeUpdate, saveStateForUndo_noflag hflag, pushHistory,
        mutShapes, mutEntry]
  | del i d f =>
      simp [applyMut, deleteShape, saveStateForUndo_noflag hflag, pushHistory,
        mutShapes, mutEntry]
  | clear f =>
      have hne : ctx.shapes.isEmpty = false := by
        simpa [mutGuard] using hg
      simp [applyMut, clearBoard, hne, saveStateForUndo_noflag hflag, pushHistory,
        mutShapes, mutEntry]

/-- How one guard-passing local mutation transforms a context whose
suppression flag is set: the undo capture is skipped (both stacks are
untouched) and the flag is cleared; the shapes and the log still
change. -/
lemma applyMut_suppressed {ctx : Ctx} {m : LocalMut} (hflag : ctx.isUndoRedo = true)
    (hg : mutGuard ctx m = true) :
    applyMut ctx m =
      { ctx with
          shapes := mutShapes ctx m
          history := (mutEntry ctx m :: ctx.history).take 250
          isUndoRedo := false } := by
  cases m with
  | commit s d f =>
      simp [applyMut, commitShape, saveStateForUndo_flag hflag, pushHistory,
        mutShapes, mutEntry]
  | update s d f =>
      simp [applyMut, applyShapeUpdate, saveStateForUndo_flag hflag, pushHistory,
        mutShapes, mutEntry]
  | del i d f =>
      simp [applyMut, deleteShape, saveStateForUndo_flag hflag, pushHistory,
        mutShapes, mutEntry]
  | clear f =>
      have hne : ctx.shapes.isEmpty = false := by
        simpa [mutGuard] using hg
      simp [applyMut, clearBoard, hne, saveStateForUndo_flag hflag, pushHistory,
        mutShapes, mutEntry]

/-- Popping an undo frame: explicit form of `performUndo` on a nonempty
undo stack. -/
lemma performUndo_cons {ctx : Ctx} {prev : Snapshot} {rest : List Snapshot}
    (fresh : Fresh) (h : ctx.undoStack = prev :: rest) :
    (performUndo ctx fresh).1 =
      { ctx with
          undoStack := rest
          redoStack := Snapshot.mk ctx.shapes ctx.history :: ctx.redoStack
          isUndoRedo := true
          shapes := prev.shapes
          history := (mkHistoryItem fresh ctx.userName
            (ctx.userName ++ " undid last action") :: prev.history).take 250 } := by
  simp [performUndo, h, pushHistory]

/-- Popping a redo frame: explicit form of `performRedo` on a nonempty
redo stack. -/
lemma performRedo_cons {ctx : Ctx} {next : Snapshot} {rest : List Snapshot}
    (fresh : Fresh) (h : ctx.redoStack = next :: rest) :
    (performRedo ctx fresh).1 =
      { ctx with
          redoStack := rest
          undoStack := Snapshot.mk ctx.shapes ctx.history :: ctx.undoStack
          isUndoRedo := true
          shapes := next.shapes
          history := (mkHistoryItem fresh ctx.userName
            (ctx.userName ++ " redid last action") :: next.history).take 250 } := by
  simp [performRedo, h, pushHistory]

/-! ### Helper lemmas about phases (mutation run, undo run, redo run) -/

lemma take_append_take {α : Type} (a l : List α) (n : ℕ) :
    (a ++ l.take n).take n = (a ++ l).take n := by
  rw [List.take_append_eq_append_take, List.take_append_eq_append_take, List.take_take,
    inf_eq_left.mpr (Nat.sub_le n a.length)]

lemma snapTrajectory_length : ∀ (ms : List LocalMut) (ctx : Ctx),
    (snapTrajectory ctx ms).length = ms.length
  | [], _ => rfl
  | m :: ms, ctx => by
    simp [snapTrajectory, snapTrajectory_length ms (applyMut ctx m)]

/-- Running a guard-passing, unsuppressed mutation sequence: the undo
stack ends up holding the snapshot trajectory (newest first) on top of
the previous stack, capped at the 50 newest frames. -/
lemma applyMuts_undoStack : ∀ (ms : List LocalMut) (ctx : Ctx),
    ctx.isUndoRedo = false → validMuts ctx ms = true →
    ctx.undoStack.length ≤ 50 →
    (applyMuts ctx ms).undoStack = (snapTrajectory ctx ms ++ ctx.undoStack).take 50
  | [], ctx, _, _, hlen => by
    simp [applyMuts, snapTrajectory, List.take_of_length_le hlen]
  | m :: ms, ctx, hflag, hvalid, hlen => by
    rw [validMuts, Bool.and_eq_true] at hvalid
    have hstep := applyMut_eq hflag hvalid.1
    have hflag' : (applyMut ctx m).isUndoRedo = false := by rw [hstep]; exact hflag
    have hlen' : (applyMut ctx m).undoStack.length ≤ 50 := by
      rw [hstep]
      simp
    have hu : (applyMut ctx m).undoStack =
        (Snapshot.mk ctx.shapes ctx.history :: ctx.undoStack).take 50 := by
      rw [hstep]
    have ih := applyMuts_undoStack ms (applyMut ctx m) hflag' hvalid.2 hlen'
    rw [applyMuts, ih, snapTrajectory, hu, take_append_take]
    simp only [List.append_assoc, List.singleton_append]

/-- Running a guard-passing, unsuppressed mutation sequence that fits
under the 50-frame cap: the undo stack gains exactly one frame per
mutation, the deepest new frame is the pre-sequence document, the redo
stack ends empty, the flag stays clear and the identity fields are
untouched. -/
lemma applyMuts_spec : ∀ (ms : List LocalMut) (ctx : Ctx),
    ctx.isUndoRedo = false → validMuts ctx ms = true →
    ctx.undoStack.length + ms.length ≤ 50 →
    ∃ frames : List Snapshot,
      frames.length = ms.length ∧
      (applyMuts ctx ms).undoStack = frames ++ ctx.undoStack ∧
      (ms ≠ [] → frames.getLast? = some (Snapshot.mk ctx.shapes ctx.history)) ∧
      (ms ≠ [] → (applyMuts ctx ms).redoStack = []) ∧
      (applyMuts ctx ms).isUndoRedo = false ∧
      (applyMuts ctx ms).clientId = ctx.clientId ∧
      (applyMuts ctx ms).userName = ctx.userName
  | [], ctx, hflag, _, _ => by
    exact ⟨[], by simp [applyMuts, hflag]⟩
  | m :: ms, ctx, hflag, hvalid, hcap => by
    rw [validMuts, Bool.and_eq_true] at hvalid
    have hstep := applyMut_eq hflag hvalid.1
    have htake : (Snapshot.mk ctx.shapes ctx.history :: ctx.undoStack).take 50 =
        Snapshot.mk ctx.shapes ctx.history :: ctx.undoStack := by
      apply List.take_of_length_le
      simp only [List.length_cons]
      simp only [List.length_cons] at hcap
      omega
    have hflag' : (applyMut ctx m).isUndoRedo = false := by rw [hstep]; exact hflag
    have hcap' : (applyMut ctx m).undoStack.length + ms.length ≤ 50 := by
      rw [hstep]
      show ((Snapshot.mk ctx.shapes ctx.history :: ctx.undoStack).take 50).length +
        ms.length ≤ 50
      rw [htake]
      simp only [List.length_cons]
      simp only [List.length_cons] at hcap
      omega
    obtain ⟨frames', hlen', hstack', _hlast', hredo', hflagN, hclient', huser'⟩ :=
      applyMuts_spec ms (applyMut ctx m) hflag' hvalid.2 hcap'
    refine ⟨frames' ++ [Snapshot.mk ctx.shapes ctx.history], ?_, ?_, ?_, ?_, ?_, ?_, ?_⟩
    · simp [hlen']
    · rw [applyMuts, hstack', hstep]
      show frames' ++ (Snapshot.mk ctx.shapes ctx.history :: ctx.undoStack).take 50 = _
      rw [htake]
      simp
    · intro _
      exact List.getLast?_concat _
    · intro _
      cases ms with
      | nil => rw [applyMuts, applyMuts, hstep]
      | cons m' ms' => exact hredo' (by simp)
    · rw [applyMuts]; exact hflagN
    · rw [applyMuts, hclient', hstep]
    · rw [applyMuts, huser', hstep]

/-- Undoing as many times as there are frames on top of the undo stack:
the document of the deepest of those frames (the oldest snapshot)
becomes live with one fresh "undid last action" entry on top of its
history, exactly those frames are consumed, and one redo frame per undo
is pushed, the deepest of which is the pre-undo live document. -/
lemma undoIter_spec : ∀ (frames : List Snapshot) (freshes : List Fresh) (ctx : Ctx)
    (u0 : List Snapshot) (lastF : Snapshot) (lastFr : Fresh),
    ctx.undoStack = frames ++ u0 →
    frames.getLast? = some lastF →
    freshes.getLast? = some lastFr →
    freshes.length = frames.length →
    (undoIter ctx freshes).clientId = ctx.clientId ∧
    (undoIter ctx freshes).userName = ctx.userName ∧
    (undoIter ctx freshes).undoStack = u0 ∧
    (undoIter ctx freshes).shapes = lastF.shapes ∧
    (undoIter ctx freshes).history =
      (mkHistoryItem lastFr ctx.userName (ctx.userName ++ " undid last action")
        :: lastF.history).take 250 ∧
    (undoIter ctx freshes).isUndoRedo = true ∧
    ∃ mid : List Snapshot,
      (undoIter ctx freshes).redoStack =
        mid ++ Snapshot.mk ctx.shapes ctx.history :: ctx.redoStack ∧
      mid.length + 1 = frames.length := by
  intro frames
  induction frames with
  | nil => intro freshes ctx u0 lastF lastFr _ hlast; simp at hlast
  | cons f fs ih =>
    intro freshes ctx u0 lastF lastFr hstack hlastF hlastFr hlen
    match freshes, hlen with
    | fr :: frs, hlen =>
      have hstack' : ctx.undoStack = f :: (fs ++ u0) := by simp [hstack]
      have hpop := performUndo_cons fr hstack'
      cases fs with
      | nil =>
        have hfrs : frs = [] := List.length_eq_zero.mp (by simpa using hlen)
        subst hfrs
        rw [List.getLast?_singleton, Option.some_inj] at hlastF hlastFr
        subst hlastF hlastFr
        rw [undoIter, undoIter, hpop]
        exact ⟨rfl, rfl, rfl, rfl, rfl, rfl, [], rfl, by simp⟩
      | cons f' fs' =>
        match frs, hlen with
        | fr' :: frs', hlen =>
          rw [List.getLast?_cons_cons] at hlastF hlastFr
          rw [undoIter]
          have hstack1 : (performUndo ctx fr).1.undoStack = (f' :: fs') ++ u0 := by
            rw [hpop]
          obtain ⟨hclient, huser, hundo, hshapes, hhist, hflag, mid', hredo, hmidlen⟩ :=
            ih (fr' :: frs') (performUndo ctx fr).1 u0 lastF lastFr hstack1
              hlastF hlastFr (by simpa using hlen)
          have huser1 : (performUndo ctx fr).1.userName = ctx.userName := by rw [hpop]
          refine ⟨?_, ?_, hundo, hshapes, ?_, hflag, ?_⟩
          · rw [hclient, hpop]
          · rw [huser, hpop]
          · rw [hhist, huser1]
          · refine ⟨mid' ++ [Snapshot.mk (performUndo ctx fr).1.shapes
              (performUndo ctx fr).1.history], ?_, ?_⟩
            · rw [hredo]
              have : (performUndo ctx fr).1.redoStack =
                  Snapshot.mk ctx.shapes ctx.history :: ctx.redoStack := by rw [hpop]
              rw [this]
              simp
            · simp only [List.length_append, List.length_cons, List.length_nil]
                at hmidlen ⊢
              omega

/-- Redoing as many times as there are frames on the redo stack makes
the document of the deepest (first-pushed) frame live. -/
lemma redoIter_last : ∀ (freshes : List Fresh) (ctx : Ctx) (lastR : Snapshot),
    ctx.redoStack.getLast? = some lastR →
    freshes.length = ctx.redoStack.length →
    (redoIter ctx freshes).shapes = lastR.shapes := by
  intro freshes
  induction freshes with
  | nil =>
    intro ctx lastR hlast hlen
    rw [List.length_eq_zero.mp hlen.symm] at hlast
    simp at hlast
  | cons fr frs ih =>
    intro ctx lastR hlast hlen
    match hr : ctx.redoStack, hlast, hlen with
    | r :: rest, hlast, hlen =>
      have hpop := performRedo_cons fr hr
      rw [redoIter]
      cases rest with
      | nil =>
        have hfrs : frs = [] := List.length_eq_zero.mp (by simpa using hlen)
        subst hfrs
        rw [List.getLast?_singleton, Option.some_inj] at hlast
        subst hlast
        rw [redoIter, hpop]
      | cons r' rest' =>
        rw [List.getLast?_cons_cons] at hlast
        have hstack1 : (performRedo ctx fr).1.redoStack = r' :: rest' := by rw [hpop]
        have hshapes := ih (performRedo ctx fr).1 lastR (by rw [hstack1]; exact hlast)
          (by rw [hstack1]; simpa using hlen)
        exact hshapes

/-! ### Claim theorems -/

/-- C7: every incoming channel message whose `senderId` equals the
receiving context's own `clientId` leaves the local state entirely
unchanged — shapes, history, undo stack, redo stack and suppression flag
— and sends no reply, regardless of the message kind. -/
theorem self_echo_immune (ctx : Ctx) (msg : ChannelMessage)
    (h : msg.senderId = ctx.clientId) :
    handleMessage ctx msg = (ctx, []) := by
  simp [handleMessage, h]

theorem self_echo_immune_witness :
    (ChannelMessage.syncRequest "self").senderId = exCtx.clientId ∧
    handleMessage exCtx (.syncRequest "self") = (exCtx, []) :=
  ⟨rfl, self_echo_immune exCtx (.syncRequest "self") rfl⟩

/-- C8: for every table shape with `rows = R` and `cols = C` and an
arbitrary cells grid (missing, ragged, too short or too long),
`ensureTableCells` returns a table with the same `rows`/`cols` whose
grid has exactly `R` rows, each of exactly `C` cells, where every
in-bounds input cell is preserved and every missing entry becomes the
empty string (both captured by the `getD _ ""` lookup, which yields the
original content when present and `""` otherwise). -/
theorem ensureTableCells_complete (t : TableShape) :
    (ensureTableCells t).rows = t.rows ∧
    (ensureTableCells t).cols = t.cols ∧
    (ensureTableCells t).cells.length = t.rows ∧
    (∀ rowCells ∈ (ensureTableCells t).cells, rowCells.length = t.cols) ∧
    (∀ r c, r < t.rows → c < t.cols →
      ((ensureTableCells t).cells.getD r []).getD c "" =
        (t.cells.getD r []).getD c "") := by
  refine ⟨rfl, rfl, by simp [ensureTableCells], ?_, ?_⟩
  · intro rowCells hmem
    simp only [ensureTableCells, List.mem_map, List.mem_range] at hmem
    obtain ⟨r, _, rfl⟩ := hmem
    simp
  · intro r c hr hc
    simp [ensureTableCells, List.getD_eq_getElem?_getD, List.getElem?_map,
      List.getElem?_range, hr, hc]

theorem ensureTableCells_complete_witness :
    (0 < exTable.rows ∧ 0 < exTable.cols) ∧
    ((ensureTableCells exTable).cells.getD 0 []).getD 0 "" =
      (exTable.cells.getD 0 []).getD 0 "" :=
  ⟨⟨by decide, by decide⟩,
    (ensureTableCells_complete exTable).2.2.2.2 0 0 (by decide) (by decide)⟩

/-- C9: a `sync-request` from a different sender is answered with a full
`sync-state` snapshot of the current shapes and history exactly when
the local shapes list or history list is non-empty, and never changes
local state; a `sync-state` from a different sender unconditionally
replaces the local shapes (normalized) and history with the carried
payload, with no merge and no reply. -/
theorem sync_protocol (ctx : Ctx) (sender : String) (shs : List Shape)
    (hist : List HistoryItem) (hs : sender ≠ ctx.clientId) :
    ((handleMessage ctx (.syncRequest sender)).1 = ctx) ∧
    (ctx.shapes = [] ∧ ctx.history = [] →
      (handleMessage ctx (.syncRequest sender)).2 = []) ∧
    (ctx.shapes ≠ [] ∨ ctx.history ≠ [] →
      (handleMessage ctx (.syncRequest sender)).2 =
        [.syncState ctx.shapes ctx.history ctx.clientId]) ∧
    (handleMessage ctx (.syncState shs hist sender) =
      ({ ctx with shapes := normalizeShapes shs, history := hist }, [])) := by
  refine ⟨?_, ?_, ?_, ?_⟩
  · simp only [handleMessage, ChannelMessage.senderId, if_neg hs]
    split <;> rfl
  · rintro ⟨h1, h2⟩
    simp [handleMessage, ChannelMessage.senderId, if_neg hs, h1, h2]
  · intro h
    have hcond : (ctx.shapes.isEmpty && ctx.history.isEmpty) = false := by
      rcases h with h | h <;>
        simp [List.isEmpty_iff, h, Bool.and_eq_false_iff]
    simp [handleMessage, ChannelMessage.senderId, if_neg hs, hcond]
  · simp [handleMessage, ChannelMessage.senderId, if_neg hs]

theorem sync_protocol_witness :
    ("peer" ≠ ctxStacks.clientId) ∧
    (handleMessage ctxStacks (.syncRequest "peer")).2 =
      [.syncState ctxStacks.shapes ctxStacks.history ctxStacks.clientId] ∧
    handleMessage ctxStacks (.syncState [] [exEntry] "peer") =
      ({ ctxStacks with shapes := [], history := [exEntry] }, []) := by
  have h := sync_protocol ctxStacks "peer" [] [exEntry] (by decide)
  exact ⟨by decide, h.2.2.1 (Or.inl (by decide)), by
    rw [h.2.2.2]
    rfl⟩

/-- C6: each guarded no-op really is a complete silent no-op, returning
the context unchanged (shapes, history, both stacks and flag) with no
broadcast: `clearBoard` on an empty shape list, `performUndo` on an
empty undo stack, `performRedo` on an empty redo stack, and
`updateTableCell` when the trimmed new value equals the current content
of the addressed cell. -/
theorem noop_guards (ctx : Ctx) (fresh : Fresh) (t : TableShape)
    (row col : Nat) (value : String) :
    (ctx.shapes = [] → clearBoard ctx fresh = (ctx, [])) ∧
    (ctx.undoStack = [] → performUndo ctx fresh = (ctx, [])) ∧
    (ctx.redoStack = [] → performRedo ctx fresh = (ctx, [])) ∧
    (((ensureTableCells t).cells[row]?.bind fun cellRow => cellRow[col]?) =
        some (trimString value) →
      updateTableCell ctx t row col value fresh = (ctx, [])) := by
  refine ⟨?_, ?_, ?_, ?_⟩
  · intro h; simp [clearBoard, h]
  · intro h; simp [performUndo, h]
  · intro h; simp [performRedo, h]
  · intro h; simp [updateTableCell, h]

theorem noop_guards_witness :
    (exCtx.shapes = [] ∧ exCtx.undoStack = [] ∧ exCtx.redoStack = [] ∧
      ((ensureTableCells exTable).cells[1]?.bind fun cellRow => cellRow[0]?) =
        some (trimString " c ")) ∧
    clearBoard exCtx ⟨"f", 0⟩ = (exCtx, []) ∧
    performUndo exCtx ⟨"f", 0⟩ = (exCtx, []) ∧
    performRedo exCtx ⟨"f", 0⟩ = (exCtx, []) ∧
    updateTableCell exCtx exTable 1 0 " c " ⟨"f", 0⟩ = (exCtx, []) := by
  have h := noop_guards exCtx ⟨"f", 0⟩ exTable 1 0 " c "
  exact ⟨⟨by decide, by decide, by decide, by decide⟩,
    h.1 (by decide), h.2.1 (by decide), h.2.2.1 (by decide), h.2.2.2 (by decide)⟩

/-- C10 counterexample: the claim says no shape's computed bounds have
zero width, but `getShapeBounds` applies no positive floor to table
bounds: a table shape with `cellWidth = 0` (a legitimate shape value)
gets bounds of width `cols * cellWidth = 0`.  Text bounds likewise
carry no floor (zero when `fontSize = 0`); only path bounds are
clamped. -/
theorem table_bounds_zero_width_cex :
    (getShapeBounds (.table exTableZero)).width = 0 := by
  simp [getShapeBounds, exTableZero]

/-- C10 (amended): the floor-clamping holds for path shapes only: every
path's bounds have width and height at least `MIN_PATH_DIMENSION`, and
a degenerate path with 0 or 1 points gets exactly `MIN_PATH_DIMENSION`
for both; table and text bounds are computed exactly from
`rows`/`cols`/cell sizes and `fontSize` with no positive minimum. -/
theorem path_bounds_min_clamped (p : PathShape) :
    MIN_PATH_DIMENSION ≤ (getShapeBounds (.path p)).width ∧
    MIN_PATH_DIMENSION ≤ (getShapeBounds (.path p)).height ∧
    (p.points.length ≤ 1 →
      (getShapeBounds (.path p)).width = MIN_PATH_DIMENSION ∧
      (getShapeBounds (.path p)).height = MIN_PATH_DIMENSION) := by
  rcases hq : p.points with _ | ⟨q, rest⟩
  · refine ⟨?_, ?_, fun _ => ⟨?_, ?_⟩⟩ <;> simp [getShapeBounds, hq]
  · rcases rest with _ | ⟨q', rest'⟩
    · refine ⟨?_, ?_, fun _ => ⟨?_, ?_⟩⟩ <;>
        simp [getShapeBounds, hq, MIN_PATH_DIMENSION]
    · refine ⟨?_, ?_, fun hlen => ?_⟩
      · simp only [getShapeBounds, hq]
        exact le_max_right _ _
      · simp only [getShapeBounds, hq]
        exact le_max_right _ _
      · simp at hlen

theorem path_bounds_min_clamped_witness :
    exPathOne.points.length ≤ 1 ∧
    (getShapeBounds (.path exPathOne)).width = MIN_PATH_DIMENSION :=
  ⟨by decide, ((path_bounds_min_clamped exPathOne).2.2 (by decide)).1⟩

set_option maxRecDepth 10000 in
/-- C4 counterexample: the claim says the history list's length never
exceeds 250 after any operation, including applying a remote mutation
message — but the remote branches of `handleMessage` prepend the
carried entry with no `slice(0, 250)`, so a context already holding 250
entries ends up with 251 after a remote `add-shape`. -/
theorem remote_history_unbounded_cex :
    ¬ ((handleMessage ctx250
        (.addShape (.path exPath) exEntry "peer")).1.history.length ≤ 250) := by
  decide

/-- C4 (amended): every history append is a prepend at the head, but the
250-entry bound is enforced only on the local path: `pushHistory` puts
the new entry at the head, keeps at most 250 entries and truncates the
tail to the 249 most recent old entries, while applying a remote
add-shape, update-shape, delete-shape or clear-board message prepends
the carried entry at the head with no truncation, so the bound can be
exceeded after remote messages. -/
theorem history_prepend_and_local_bound (ctx : Ctx) (fresh : Fresh) (d : String)
    (shape : Shape) (entry : HistoryItem) (sid sender : String)
    (hs : sender ≠ ctx.clientId) :
    ((pushHistory ctx fresh d).1.history.head? =
      some (mkHistoryItem fresh ctx.userName d)) ∧
    (pushHistory ctx fresh d).1.history.length ≤ 250 ∧
    (pushHistory ctx fresh d).1.history.tail = ctx.history.take 249 ∧
    ((handleMessage ctx (.addShape shape entry sender)).1.history =
      entry :: ctx.history) ∧
    ((handleMessage ctx (.clearBoard entry sender)).1.history =
      entry :: ctx.history) ∧
    ((handleMessage ctx (.updateShape shape entry sender)).1.history =
      entry :: ctx.history) ∧
    ((handleMessage ctx (.deleteShape sid entry sender)).1.history =
      entry :: ctx.history) := by
  refine ⟨rfl, ?_, rfl, ?_, ?_, ?_, ?_⟩
  · simp [pushHistory]
  all_goals simp [handleMessage, ChannelMessage.senderId, if_neg hs]

theorem history_prepend_and_local_bound_witness :
    ("peer" ≠ ctx250.clientId) ∧
    (pushHistory ctx250 ⟨"h", 1⟩ "d").1.history.length ≤ 250 ∧
    (handleMessage ctx250 (.addShape (.path exPath) exEntry "peer")).1.history =
      exEntry :: ctx250.history := by
  have h := history_prepend_and_local_bound ctx250 ⟨"h", 1⟩ "d" (.path exPath)
    exEntry "x" "peer" (by decide)
  exact ⟨by decide, h.2.1, h.2.2.2.1⟩

/-- C1 counterexample: the claim says that after applying a remote
`undo-redo` message the next single local mutation pushes exactly one
new undo frame.  Starting from the empty context (empty undo stack),
applying a remote `undo-redo` and then one `commitShape` leaves the
undo stack empty — zero new frames, not one — because the one-shot
flag set by the remote message suppresses exactly that capture. -/
theorem remote_undo_redo_one_frame_cex :
    ¬ ((applyMut (handleMessage exCtx (.undoRedo [] [] "peer")).1
        (.commit exShape "me drew a stroke (2 pts)" ⟨"h1", 1⟩)).undoStack.length
      = 1) := by
  decide

/-- C1 (amended): applying a remote `undo-redo` message sets the
one-shot suppression flag and replaces the live document without
touching either stack; the next single local mutation then pushes NO
new undo frame (its capture is suppressed, clearing the flag and
leaving the redo stack untouched); it is the second local mutation that
pushes exactly one frame, and that frame captures the document state
after both the remote change and the first mutation. -/
theorem remote_undo_redo_one_shot (ctx : Ctx) (shs : List Shape)
    (hist : List HistoryItem) (sender : String) (m1 m2 : LocalMut)
    (hs : sender ≠ ctx.clientId) :
    ∀ ctx1, ctx1 = (handleMessage ctx (.undoRedo shs hist sender)).1 →
    ctx1 = { ctx with
        isUndoRedo := true
        shapes := normalizeShapes shs
        history := hist } ∧
    (mutGuard ctx1 m1 = true →
      (applyMut ctx1 m1).undoStack = ctx.undoStack ∧
      (applyMut ctx1 m1).redoStack = ctx.redoStack ∧
      (applyMut ctx1 m1).isUndoRedo = false ∧
      (mutGuard (applyMut ctx1 m1) m2 = true →
        (applyMut (applyMut ctx1 m1) m2).undoStack =
          (Snapshot.mk (applyMut ctx1 m1).shapes (applyMut ctx1 m1).history
            :: ctx.undoStack).take 50 ∧
        (applyMut (applyMut ctx1 m1) m2).undoStack.head? =
          some (Snapshot.mk (applyMut ctx1 m1).shapes (applyMut ctx1 m1).history))) := by
  have hmsg : (handleMessage ctx (.undoRedo shs hist sender)).1 =
      { ctx with isUndoRedo := true, shapes := normalizeShapes shs
                 history := hist } := by
    simp [handleMessage, ChannelMessage.senderId, if_neg hs]
  intro ctx1 hctx1
  refine ⟨by rw [hctx1, hmsg], fun hg1 => ?_⟩
  have hflag1 : ctx1.isUndoRedo = true := by rw [hctx1, hmsg]
  have hstep1 := applyMut_suppressed hflag1 hg1
  have hundo1 : (applyMut ctx1 m1).undoStack = ctx.undoStack := by
    rw [hstep1]
    show ctx1.undoStack = ctx.undoStack
    rw [hctx1, hmsg]
  have hredo1 : (applyMut ctx1 m1).redoStack = ctx.redoStack := by
    rw [hstep1]
    show ctx1.redoStack = ctx.redoStack
    rw [hctx1, hmsg]
  have hflag1' : (applyMut ctx1 m1).isUndoRedo = false := by rw [hstep1]
  refine ⟨hundo1, hredo1, hflag1', fun hg2 => ?_⟩
  have hstep2 := applyMut_eq hflag1' hg2
  constructor
  · rw [hstep2]
    show (Snapshot.mk (applyMut ctx1 m1).shapes (applyMut ctx1 m1).history
      :: (applyMut ctx1 m1).undoStack).take 50 = _
    rw [hundo1]
  · rw [hstep2]
    show ((Snapshot.mk (applyMut ctx1 m1).shapes (applyMut ctx1 m1).history
      :: (applyMut ctx1 m1).undoStack).take 50).head? = _
    rfl

theorem remote_undo_redo_one_shot_witness :
    ("peer" ≠ exCtx.clientId) ∧
    (mutGuard (handleMessage exCtx (.undoRedo [exShape] [exEntry] "peer")).1
      (.del "p1" "me erased a stroke" ⟨"h1", 1⟩) = true) ∧
    (applyMut (handleMessage exCtx (.undoRedo [exShape] [exEntry] "peer")).1
      (.del "p1" "me erased a stroke" ⟨"h1", 1⟩)).undoStack = exCtx.undoStack := by
  have h := remote_undo_redo_one_shot exCtx [exShape] [exEntry] "peer"
    (.del "p1" "me erased a stroke" ⟨"h1", 1⟩)
    (.commit exShape "me drew a stroke (2 pts)" ⟨"h2", 2⟩) (by decide) _ rfl
  exact ⟨by decide, by decide, (h.2 (by decide)).1⟩

/-- C3: a locally-initiated `performUndo` or `performRedo` (on a
nonempty stack) sets the one-shot suppression flag, so the first
guard-passing local mutation performed afterwards has its undo-snapshot
capture skipped exactly once: that mutation pushes no undo frame,
leaves the redo stack untouched, and clears the flag. -/
theorem local_undo_redo_one_shot (ctx : Ctx) (fresh : Fresh) (m : LocalMut) :
    (ctx.undoStack ≠ [] →
      (performUndo ctx fresh).1.isUndoRedo = true ∧
      (mutGuard (performUndo ctx fresh).1 m = true →
        (applyMut (performUndo ctx fresh).1 m).undoStack =
          (performUndo ctx fresh).1.undoStack ∧
        (applyMut (performUndo ctx fresh).1 m).redoStack =
          (performUndo ctx fresh).1.redoStack ∧
        (applyMut (performUndo ctx fresh).1 m).isUndoRedo = false)) ∧
    (ctx.redoStack ≠ [] →
      (performRedo ctx fresh).1.isUndoRedo = true ∧
      (mutGuard (performRedo ctx fresh).1 m = true →
        (applyMut (performRedo ctx fresh).1 m).undoStack =
          (performRedo ctx fresh).1.undoStack ∧
        (applyMut (performRedo ctx fresh).1 m).redoStack =
          (performRedo ctx fresh).1.redoStack ∧
        (applyMut (performRedo ctx fresh).1 m).isUndoRedo = false)) := by
  constructor
  · intro hne
    match hu : ctx.undoStack, hne with
    | prev :: rest, _ =>
      have hpop := performUndo_cons fresh hu
      have hflag : (performUndo ctx fresh).1.isUndoRedo = true := by rw [hpop]
      refine ⟨hflag, fun hg => ?_⟩
      have hstep := applyMut_suppressed hflag hg
      rw [hstep]
      exact ⟨rfl, rfl, rfl⟩
  · intro hne
    match hr : ctx.redoStack, hne with
    | next :: rest, _ =>
      have hpop := performRedo_cons fresh hr
      have hflag : (performRedo ctx fresh).1.isUndoRedo = true := by rw [hpop]
      refine ⟨hflag, fun hg => ?_⟩
      have hstep := applyMut_suppressed hflag hg
      rw [hstep]
      exact ⟨rfl, rfl, rfl⟩

theorem local_undo_redo_one_shot_witness :
    (ctxStacks.undoStack ≠ [] ∧ ctxStacks.redoStack ≠ [] ∧
      mutGuard (performUndo ctxStacks ⟨"u1", 2⟩).1
        (.commit exShape "me drew a stroke (2 pts)" ⟨"h1", 1⟩) = true) ∧
    (performUndo ctxStacks ⟨"u1", 2⟩).1.isUndoRedo = true ∧
    (applyMut (performUndo ctxStacks ⟨"u1", 2⟩).1
        (.commit exShape "me drew a stroke (2 pts)" ⟨"h1", 1⟩)).undoStack =
      (performUndo ctxStacks ⟨"u1", 2⟩).1.undoStack ∧
    (performRedo ctxStacks ⟨"r1", 3⟩).1.isUndoRedo = true := by
  have h := local_undo_redo_one_shot ctxStacks ⟨"u1", 2⟩
    (.commit exShape "me drew a stroke (2 pts)" ⟨"h1", 1⟩)
  have h' := local_undo_redo_one_shot ctxStacks ⟨"r1", 3⟩
    (.commit exShape "me drew a stroke (2 pts)" ⟨"h1", 1⟩)
  have hu := h.1 (by decide)
  exact ⟨⟨by decide, by decide, by decide⟩, hu.1, (hu.2 (by decide)).1,
    (h'.2 (by decide)).1⟩

/-- C5: starting from an empty undo stack, a run of 60 consecutive
guard-passing, unsuppressed local mutations leaves the undo stack
holding exactly 50 snapshots, namely the 50 newest of the 60 captured
ones; the 10 discarded snapshots are exactly the oldest ones (the tail
of the newest-first trajectory, i.e. the 10 first-captured snapshots in
oldest-first order). -/
theorem undo_stack_cap_oldest_discarded (ctx : Ctx) (ms : List LocalMut)
    (hflag : ctx.isUndoRedo = false) (hvalid : validMuts ctx ms = true)
    (hlen : ms.length = 60) (hu : ctx.undoStack = []) :
    (applyMuts ctx ms).undoStack = (snapTrajectory ctx ms).take 50 ∧
    (applyMuts ctx ms).undoStack.length = 50 ∧
    (snapTrajectory ctx ms).length = 60 ∧
    (snapTrajectory ctx ms).drop 50 =
      ((snapTrajectory ctx ms).reverse.take 10).reverse := by
  have htraj := snapTrajectory_length ms ctx
  have h1 := applyMuts_undoStack ms ctx hflag hvalid (by rw [hu]; simp)
  rw [hu, List.append_nil] at h1
  refine ⟨h1, ?_, by rw [htraj, hlen], ?_⟩
  · rw [h1, List.length_take, htraj, hlen]
    rfl
  · rw [List.take_reverse]
    simp [htraj, hlen]

set_option maxRecDepth 40000 in
theorem undo_stack_cap_oldest_discarded_witness :
    (validMuts exCtx ms60 = true ∧ ms60.length = 60) ∧
    (applyMuts exCtx ms60).undoStack.length = 50 :=
  ⟨⟨by decide, by decide⟩,
    (undo_stack_cap_oldest_discarded exCtx ms60 rfl (by decide) (by decide) rfl).2.1⟩

set_option maxRecDepth 10000 in
/-- C2 counterexample: the claim quantifies over every initial document
state, but the history restoration fails at the 250-entry cap.  With an
initial history already holding 250 entries, one `commitShape` followed
by one `performUndo` yields a history whose non-"undid last action"
entries are only the 249 newest of the original 250 — the oldest entry
has been dropped by the `take 250` applied when the undo's own log line
is appended — so the history is not restored to its pre-sequence value
modulo the undo log lines. -/
theorem undo_redo_inverse_cex :
    (undoIter (applyMuts ctx250 [.commit exShape "d" ⟨"h1", 1⟩])
        [⟨"u1", 2⟩]).history.filter
      (fun e => e.description ≠ "u undid last action") ≠ ctx250.history := by
  decide

/-- C2 (amended): the undo/redo inverse law holds away from the two
caps.  For every initial state with a clear suppression flag and every
nonempty sequence of guard-passing local mutations, provided the undo
stack has room for every captured snapshot (initial length + N ≤ 50)
and the initial history has at most 249 entries, undoing N times
restores the shapes and the undo stack to their pre-sequence values and
the history to the pre-sequence history with exactly one fresh
"undid last action" entry at its head (each undo replaces the whole
history, so only the last undo's log line survives), and redoing N
times afterwards restores the post-sequence shapes. -/
theorem undo_redo_inverse (ctx : Ctx) (ms : List LocalMut) (ufr rfr : List Fresh)
    (hms : ms ≠ [])
    (hflag : ctx.isUndoRedo = false)
    (hvalid : validMuts ctx ms = true)
    (hcap : ctx.undoStack.length + ms.length ≤ 50)
    (hhist : ctx.history.length ≤ 249)
    (hufr : ufr.length = ms.length)
    (hrfr : rfr.length = ms.length) :
    ∃ undoneEntry : HistoryItem,
      undoneEntry.user = ctx.userName ∧
      undoneEntry.description = ctx.userName ++ " undid last action" ∧
      (undoIter (applyMuts ctx ms) ufr).shapes = ctx.shapes ∧
      (undoIter (applyMuts ctx ms) ufr).history = undoneEntry :: ctx.history ∧
      (undoIter (applyMuts ctx ms) ufr).undoStack = ctx.undoStack ∧
      (redoIter (undoIter (applyMuts ctx ms) ufr) rfr).shapes =
        (applyMuts ctx ms).shapes := by
  obtain ⟨frames, hlenF, hstackN, hlastN, hredoN, _hflagN, _hclientN, huserN⟩ :=
    applyMuts_spec ms ctx hflag hvalid hcap
  have hufrne : ufr ≠ [] := by
    intro h
    rw [h] at hufr
    exact hms (List.length_eq_zero.mp hufr.symm)
  obtain ⟨lastFr, hlastFr⟩ : ∃ x, ufr.getLast? = some x := by
    cases h : ufr.getLast? with
    | none => exact absurd (List.getLast?_eq_none_iff.mp h) hufrne
    | some x => exact ⟨x, rfl⟩
  obtain ⟨_hclientU, _huserU, hundoU, hshapesU, hhistU, _hflagU, mid, hredoU, hmidlen⟩ :=
    undoIter_spec frames ufr (applyMuts ctx ms) ctx.undoStack
      (Snapshot.mk ctx.shapes ctx.history) lastFr hstackN (hlastN hms) hlastFr
      (hufr.trans hlenF.symm)
  refine ⟨mkHistoryItem lastFr ctx.userName (ctx.userName ++ " undid last action"),
    rfl, rfl, hshapesU, ?_, hundoU, ?_⟩
  · rw [hhistU, huserN]
    apply List.take_of_length_le
    simp only [List.length_cons]
    omega
  · have hredoStack : (undoIter (applyMuts ctx ms) ufr).redoStack =
        mid ++ [Snapshot.mk (applyMuts ctx ms).shapes (applyMuts ctx ms).history] := by
      rw [hredoU, hredoN hms]
    have hlastR : (undoIter (applyMuts ctx ms) ufr).redoStack.getLast? =
        some (Snapshot.mk (applyMuts ctx ms).shapes (applyMuts ctx ms).history) := by
      rw [hredoStack]
      exact List.getLast?_concat _
    have hlenR : rfr.length = (undoIter (applyMuts ctx ms) ufr).redoStack.length := by
      rw [hredoStack]
      simp only [List.length_append, List.length_cons, List.length_nil]
      omega
    exact redoIter_last rfr (undoIter (applyMuts ctx ms) ufr)
      (Snapshot.mk (applyMuts ctx ms).shapes (applyMuts ctx ms).history) hlastR hlenR

theorem undo_redo_inverse_witness :
    (validMuts exCtx [LocalMut.commit exShape "d" ⟨"h1", 1⟩] = true ∧
      exCtx.history.length ≤ 249) ∧
    (∃ undoneEntry : HistoryItem,
      undoneEntry.user = exCtx.userName ∧
      undoneEntry.description = exCtx.userName ++ " undid last action" ∧
      (undoIter (applyMuts exCtx [LocalMut.commit exShape "d" ⟨"h1", 1⟩])
        [⟨"u1", 2⟩]).shapes = exCtx.shapes ∧
      (undoIter (applyMuts exCtx [LocalMut.commit exShape "d" ⟨"h1", 1⟩])
        [⟨"u1", 2⟩]).history = undoneEntry :: exCtx.history ∧
      (undoIter (applyMuts exCtx [LocalMut.commit exShape "d" ⟨"h1", 1⟩])
        [⟨"u1", 2⟩]).undoStack = exCtx.undoStack ∧
      (redoIter (undoIter (applyMuts exCtx [LocalMut.commit exShape "d" ⟨"h1", 1⟩])
        [⟨"u1", 2⟩]) [⟨"r1", 3⟩]).shapes =
        (applyMuts exCtx [LocalMut.commit exShape "d" ⟨"h1", 1⟩]).shapes) :=
  ⟨⟨by decide, by decide⟩,
    undo_redo_inverse exCtx [LocalMut.commit exShape "d" ⟨"h1", 1⟩]
      [⟨"u1", 2⟩] [⟨"r1", 3⟩] (by decide) rfl (by decide) (by decide) (by decide)
      rfl rfl⟩

end Whiteboard
